import Mathlib

/-!
Shallow embedding of the container/tray resource-tracking subsystem of the
solid-dosing workstation repository (`src/robot/resources/containers.py` and
`src/resources/resource_handler.py`).

Conventions of the embedding:
* Python floats are modelled as rationals (`ℚ`); the claims only involve
  exact comparisons and additions.
* Python `OrderedDict` is modelled as an association list that updates a
  present key in place and appends an absent key at the end, exactly as a
  Python dict does.
* A mutating method is modelled as a function from the receiver's state to a
  `PyResult`: the state at return time (for a raising method, the state at the
  moment the exception is raised, since Python mutations before a `raise`
  persist), the raised exception (`err`), and whether the method invoked
  `_update_plate_json` (`saved`).
* `uuid.uuid4()` is modelled by an externally supplied token `fresh : ℕ`.
-/

namespace SolidDosing

/-- Pose record from `ur5_rtde_gripper.Location`: a position list `[x, y, z]`
and an orientation list `[rx, ry, rz]`. -/
structure Location where
  position : List ℚ
  orientation : List ℚ
deriving DecidableEq

/-- A 6-component pose as passed for the A1 well to `Handler.create_grid`
(the Python code indexes it as `location[0] .. location[5]`). -/
structure Pose6 where
  px : ℚ
  py : ℚ
  pz : ℚ
  ox : ℚ
  oy : ℚ
  oz : ℚ
deriving DecidableEq

/-- Python `str.lower()` restricted to its ASCII behaviour, which is all the
code relies on (`sample_name.lower() == 'empty'`). -/
def pyLower (s : String) : String :=
  ⟨s.data.map Char.toLower⟩

/-- Python dict write `d[k] = v`: replace the value of a present key in
place, append an absent key at the end. -/
def odUpd {α : Type} (l : List (String × α)) (k : String) (v : α) : List (String × α) :=
  match l with
  | [] => [(k, v)]
  | (k₀, v₀) :: t => if k₀ = k then (k₀, v) :: t else (k₀, v₀) :: odUpd t k v

/-- Python `d[k] += v` when `k in d`, `d[k] = v` otherwise
(`Container.add_content`'s update of `contents`). -/
def odAdd (l : List (String × ℚ)) (k : String) (v : ℚ) : List (String × ℚ) :=
  match l with
  | [] => [(k, v)]
  | (k₀, v₀) :: t => if k₀ = k then (k₀, v₀ + v) :: t else (k₀, v₀) :: odAdd t k v

/-- Python dict read `d.get(k)`. -/
def odGet {α : Type} (l : List (String × α)) (k : String) : Option α :=
  match l with
  | [] => none
  | (k₀, v₀) :: t => if k₀ = k then some v₀ else odGet t k

/-- Python `sum(d.values())`. -/
def odSum (l : List (String × ℚ)) : ℚ :=
  (l.map Prod.snd).sum

/-- Result of running one mutating method: the receiver's state at return or
raise time, the raised exception if any, and whether the method invoked
`_update_plate_json` (which writes the tray JSON snapshot whenever the
container is attached to a tray). -/
structure PyResult (α : Type) where
  state : α
  err : Option String := none
  saved : Bool := false
deriving DecidableEq

/-- State of `containers.BaseContainer`.  The fields are those read or
written by the methods under verification; `last_weight_mg` models the
dynamically created attribute `_last_weight_mg` (absent, i.e. `none`, until
the `'empty'` branch of `add_weight_measurement` first assigns it). -/
structure BaseContainer where
  unique_id : Option ℕ := none
  user_defined_id : Option String := none
  well_name : String := ""
  tray_name : String := ""
  used : Bool := false
  location : Location := ⟨[], []⟩
  empty_weight_mg : Option ℚ := none
  weight_history : List (String × ℚ) := []
  measured_weight : List (String × ℚ) := []
  last_weight_mg : Option ℚ := none
deriving DecidableEq

/-- `BaseContainer._assign_uuid`: keep an already assigned id, otherwise
store the freshly drawn one. -/
def assign_uuid (fresh : ℕ) (c : BaseContainer) : BaseContainer :=
  if c.unique_id.isSome then c else { c with unique_id := some fresh }

/-- The `used` property setter: store the boolean and attempt a uuid
assignment.  (The `isinstance` guard is enforced by the type of `value`.) -/
def set_used (fresh : ℕ) (value : Bool) (c : BaseContainer) : BaseContainer :=
  assign_uuid fresh { c with used := value }

/-- `BaseContainer.add_weight_measurement(sample_name, weight)`. -/
def add_weight_measurement (fresh : ℕ) (sample_name : String) (weight : ℚ)
    (c : BaseContainer) : PyResult BaseContainer :=
  let c₁ := if !c.used then set_used fresh true c else c
  if weight < 0 then
    ⟨c₁, some "ValueError: Weight cannot be negative.", false⟩
  else
    let c₂ := { c₁ with weight_history := odUpd c₁.weight_history sample_name weight }
    if pyLower sample_name = "empty" then
      ⟨{ c₂ with empty_weight_mg := some weight, last_weight_mg := some weight },
        none, true⟩
    else
      match c₂.last_weight_mg with
      | none =>
          ⟨c₂, some "AttributeError: object has no attribute _last_weight_mg", false⟩
      | some lw =>
          ⟨{ c₂ with
              measured_weight := odUpd c₂.measured_weight sample_name (weight - lw),
              last_weight_mg := some weight },
            none, true⟩

/-- State of `containers.Container` (a `BaseContainer` with liquid contents
and volume bounds). -/
structure Container extends BaseContainer where
  contents : List (String × ℚ) := []
  total_volume : ℚ := 0
  min_volume_ml : ℚ := 0
  max_volume_ml : ℚ := 0
deriving DecidableEq

/-- Replace the `BaseContainer` part of a `Container`. -/
def Container.withBase (c : Container) (b : BaseContainer) : Container :=
  { c with toBaseContainer := b }

/-- `Container.add_content(key, value)`. -/
def add_content (fresh : ℕ) (key : String) (value : ℚ)
    (c : Container) : PyResult Container :=
  let c₁ := if !c.used then c.withBase (set_used fresh true c.toBaseContainer) else c
  if value ≤ 0 then
    ⟨c₁, some "ValueError: Content volume must be greater than zero.", false⟩
  else if c₁.total_volume + value > c₁.max_volume_ml then
    ⟨c₁, some "ValueError: Adding this content exceeds the container's maximum volume.",
      false⟩
  else
    let contents := odAdd c₁.contents key value
    ⟨{ c₁ with contents := contents, total_volume := odSum contents }, none, true⟩

/-- State of `containers.vial_stock` (a `Container` with a cap flag; the LC
bookkeeping fields are not touched by the verified claims). -/
structure vial_stock extends Container where
  cap : Bool := true
deriving DecidableEq

/-- Replace the `BaseContainer` part of a `vial_stock`. -/
def vial_stock.withBase (v : vial_stock) (b : BaseContainer) : vial_stock :=
  { v with toContainer := { v.toContainer with toBaseContainer := b } }

/-- `vial_stock.toggle_cap(state)`: store the cap state and return; the
method body contains no `_update_plate_json` call. -/
def toggle_cap (st : Bool) (v : vial_stock) : PyResult vial_stock :=
  ⟨{ v with cap := st }, none, false⟩

/-- The inherited `add_weight_measurement` acting on a `vial_stock`. -/
def vs_add_weight_measurement (fresh : ℕ) (sample_name : String) (weight : ℚ)
    (v : vial_stock) : PyResult vial_stock :=
  let r := add_weight_measurement fresh sample_name weight v.toBaseContainer
  ⟨v.withBase r.state, r.err, r.saved⟩

/-- The inherited `add_content` acting on a `vial_stock`. -/
def vs_add_content (fresh : ℕ) (key : String) (value : ℚ)
    (v : vial_stock) : PyResult vial_stock :=
  let r := add_content fresh key value v.toContainer
  ⟨{ v with toContainer := r.state }, r.err, r.saved⟩

/-- State of `containers.vial_sample` (a `BaseContainer` with volume bounds
and a tracked total volume, but no `contents` dict). -/
structure vial_sample extends BaseContainer where
  min_volume_ml : ℚ := 0
  max_volume_ml : ℚ := 0
  total_volume : ℚ := 0
  solvent_name : Option String := none
deriving DecidableEq

/-- `vial_sample.volume_tracking(volume_ml)`.  The source's final statement
is `self.total_volume = + volume_ml` — a unary plus, so the method assigns
`volume_ml` to `total_volume` instead of adding it; the embedding mirrors
that assignment.  No `_update_plate_json` call appears in the body. -/
def volume_tracking (volume_ml : ℚ) (v : vial_sample) : PyResult vial_sample :=
  if volume_ml < 0 then
    ⟨v, some "ValueError: Volume cannot be negative.", false⟩
  else
    if volume_ml > v.max_volume_ml - v.total_volume then
      ⟨v, some "ValueError: Volume exceeds available capacity.", false⟩
    else
      ⟨{ v with total_volume := volume_ml }, none, false⟩

/-- State of `containers.Tray`, instantiated at wells holding `vial_stock`
containers: the insertion-ordered dict `self.wells` mapping well name to
container.  (The JSON file path bookkeeping is not part of the verified
state.) -/
structure Tray where
  tray_name : String := ""
  wells : List (String × vial_stock) := []
deriving DecidableEq

/-- `Tray.get_next_available`: iterate over `self.wells.values()` and return
the first container whose `used` flag is false, else `None`. -/
def Tray.get_next_available (t : Tray) : Option vial_stock :=
  (t.wells.find? (fun p => !p.2.used)).map Prod.snd

/-- In-place update of the entry with key `w` of the insertion-ordered dict
(Python mutates the container object stored in the dict; key order is
unchanged and other entries are untouched). -/
def wellsUpd (f : vial_stock → vial_stock) (w : String) :
    List (String × vial_stock) → List (String × vial_stock)
  | [] => []
  | (k₀, v₀) :: t =>
      if k₀ = w then (k₀, f v₀) :: wellsUpd f w t else (k₀, v₀) :: wellsUpd f w t

/-- In-place update of the well named `w` of a tray. -/
def updWell (t : Tray) (w : String) (f : vial_stock → vial_stock) : Tray :=
  { t with wells := wellsUpd f w t.wells }

/-- `Tray.mark_used(container, used)`: route the assignment through the
`used` setter of the well with the container's name, raising when that name
is not a well of the tray.  The method body contains no JSON save. -/
def Tray.mark_used (fresh : ℕ) (t : Tray) (well : String) (used : Bool) :
    PyResult Tray :=
  if (odGet t.wells well).isSome then
    ⟨updWell t well (fun v => v.withBase (set_used fresh used v.toBaseContainer)),
      none, false⟩
  else
    ⟨t, some "ValueError: The specified container is not part of this tray.", false⟩

/-- One operation on a tray or one of its containers, as considered by the
double-use claim: the two history-mutating methods, the cap toggle, and the
explicit `mark_used` flag assignment. -/
inductive Op where
  | addWeight (well sample : String) (weight : ℚ) (fresh : ℕ)
  | addContent (well key : String) (value : ℚ) (fresh : ℕ)
  | toggleCap (well : String) (b : Bool)
  | markUsed (well : String) (b : Bool) (fresh : ℕ)
deriving DecidableEq

/-- Apply one operation to the tray state (the raised-exception and saved
flags are dropped; the state kept is the state Python leaves behind). -/
def applyOp (t : Tray) : Op → Tray
  | Op.addWeight w s q n => updWell t w (fun v => (vs_add_weight_measurement n s q v).state)
  | Op.addContent w k x n => updWell t w (fun v => (vs_add_content n k x v).state)
  | Op.toggleCap w b => updWell t w (fun v => (toggle_cap b v).state)
  | Op.markUsed w b n => updWell t w (fun v => v.withBase (set_used n b v.toBaseContainer))

/-- Apply a sequence of operations left to right. -/
def runOps (t : Tray) (ops : List Op) : Tray :=
  ops.foldl applyOp t

/-- An operation that explicitly resets the `used` flag of well `w`:
`mark_used(container_at_w, False)`. -/
def IsReset (w : String) : Op → Prop
  | Op.markUsed w₀ b _ => w₀ = w ∧ b = false
  | _ => False

/-- Run a list of `add_weight_measurement(sample, weight)` calls on one
container, threading a fresh-id counter and collecting each call's raised
exception (`none` when the call returned normally). -/
def runWeights : BaseContainer → ℕ → List (String × ℚ) → BaseContainer × List (Option String)
  | c, _, [] => (c, [])
  | c, n, (s, w) :: rest =>
      let r := add_weight_measurement n s w c
      let p := runWeights r.state (n + 1) rest
      (p.1, r.err :: p.2)

/-- Run a list of `add_content(key, value)` calls on one container,
threading a fresh-id counter (a raising call leaves contents and volume
unchanged, exactly as in Python). -/
def runAdds : Container → ℕ → List (String × ℚ) → Container
  | c, _, [] => c
  | c, n, (k, v) :: rest => runAdds (add_content n k v c).state (n + 1) rest

/-- `string.ascii_uppercase` as a list of characters. -/
def ascii_uppercase : List Char :=
  "ABCDEFGHIJKLMNOPQRSTUVWXYZ".data

/-- Decimal digit characters of `n`, most significant first, computed with a
fuel argument so that it is structurally recursive (`fuel ≥ n` suffices). -/
def natCharsAux : ℕ → ℕ → List Char
  | 0, _ => []
  | fuel + 1, n =>
      if n = 0 then [] else natCharsAux fuel (n / 10) ++ [Nat.digitChar (n % 10)]

/-- The decimal representation of `n`, as produced by a Python f-string. -/
def natChars (n : ℕ) : List Char :=
  if n = 0 then ['0'] else natCharsAux n n

/-- The well name built by `f"{r}{c}"`: the letter followed by the decimal
representation of the number. -/
def wellKey (r : Char) (c : ℕ) : String :=
  ⟨r :: natChars c⟩

/-- `Handler._translate(location, x, y, z)`: shift the position components
of the 6-component pose and keep the orientation components. -/
def translate (location : Pose6) (x y z : ℚ) : Location :=
  { position := [location.px + x, location.py + y, location.pz + z]
    orientation := [location.ox, location.oy, location.oz] }

/-- `Handler.create_grid(A1_vial_location, rows, columns, spacing)`: for the
`i`-th letter `r` of the first `columns` uppercase letters and each
`c ∈ 1..rows`, well `f"{r}{c}"` is the A1 pose translated by
`(-spacing[0]*i, -spacing[1]*(c-1), 0)`.  The insertion-ordered dict is
modelled as the association list in iteration order. -/
def create_grid (A1_vial_location : Pose6) (rows columns : ℕ) (sx sy : ℚ) :
    List (String × Location) :=
  ((ascii_uppercase.take columns).enum).flatMap (fun ir =>
    (List.range rows).map (fun c₀ =>
      (wellKey ir.2 (c₀ + 1),
        translate A1_vial_location (-sx * (ir.1 : ℚ)) (-sy * (c₀ : ℚ)) 0)))

/-- A used stock vial, as the first well of the concrete sample tray. -/
def vsA1 : vial_stock :=
  { well_name := "A1", tray_name := "vial_stock", used := true }

/-- An untouched stock vial, as the second well of the concrete sample tray. -/
def vsA2 : vial_stock :=
  { well_name := "A2", tray_name := "vial_stock" }

/-- A concrete two-well tray whose first well is used. -/
def sampleTray : Tray :=
  { tray_name := "vial_stock", wells := [("A1", vsA1), ("A2", vsA2)] }

/-- A concrete tray whose only well is used. -/
def usedTray : Tray :=
  { tray_name := "vial_stock", wells := [("A1", vsA1)] }

/-- A fresh 16 ml container. -/
def flask : Container :=
  { well_name := "A1", tray_name := "vial_sample", max_volume_ml := 16 }

/-- A 16 ml sample vial already holding 1 ml. -/
def tube : vial_sample :=
  { well_name := "A1", tray_name := "vial_sample", max_volume_ml := 16, total_volume := 1 }

/-- A fresh base container. -/
def bc0 : BaseContainer :=
  { well_name := "A1", tray_name := "vial_sample" }

/-- The origin pose, used as a concrete A1 location. -/
def pose0 : Pose6 :=
  ⟨0, 0, 0, 0, 0, 0⟩

/-! ## Helper lemmas -/

theorem assign_uuid_base (fresh : ℕ) (c : BaseContainer) :
    (assign_uuid fresh c).used = c.used ∧
    (assign_uuid fresh c).weight_history = c.weight_history ∧
    (assign_uuid fresh c).measured_weight = c.measured_weight ∧
    (assign_uuid fresh c).empty_weight_mg = c.empty_weight_mg ∧
    (assign_uuid fresh c).last_weight_mg = c.last_weight_mg := by
  unfold assign_uuid
  split <;> simp

theorem set_used_used (fresh : ℕ) (v : Bool) (c : BaseContainer) :
    (set_used fresh v c).used = v := by
  unfold set_used
  rw [(assign_uuid_base fresh _).1]

theorem set_used_weight_history (fresh : ℕ) (v : Bool) (c : BaseContainer) :
    (set_used fresh v c).weight_history = c.weight_history := by
  unfold set_used
  rw [(assign_uuid_base fresh _).2.1]

theorem set_used_measured_weight (fresh : ℕ) (v : Bool) (c : BaseContainer) :
    (set_used fresh v c).measured_weight = c.measured_weight := by
  unfold set_used
  rw [(assign_uuid_base fresh _).2.2.1]

theorem set_used_empty_weight (fresh : ℕ) (v : Bool) (c : BaseContainer) :
    (set_used fresh v c).empty_weight_mg = c.empty_weight_mg := by
  unfold set_used
  rw [(assign_uuid_base fresh _).2.2.2.1]

theorem set_used_last_weight (fresh : ℕ) (v : Bool) (c : BaseContainer) :
    (set_used fresh v c).last_weight_mg = c.last_weight_mg := by
  unfold set_used
  rw [(assign_uuid_base fresh _).2.2.2.2]

theorem set_used_unique_id_isSome (fresh : ℕ) (v : Bool) (c : BaseContainer) :
    ((set_used fresh v c).unique_id).isSome := by
  unfold set_used assign_uuid
  split <;> simp_all

theorem set_used_unique_id_stable (fresh : ℕ) (v : Bool) (c : BaseContainer) (u : ℕ)
    (h : c.unique_id = some u) : (set_used fresh v c).unique_id = some u := by
  unfold set_used assign_uuid
  split <;> simp_all

theorem find?_first {α : Type} (p : α → Bool) :
    ∀ (l : List α) (a : α), l.find? p = some a →
      p a = true ∧ ∃ i, ∃ h : i < l.length,
        l.get ⟨i, h⟩ = a ∧ ∀ j (hj : j < i), p (l.get ⟨j, Nat.lt_trans hj h⟩) = false := by
  intro l
  induction l with
  | nil => intro a h; simp [List.find?] at h
  | cons x t ih =>
      intro a h
      by_cases hp : p x = true
      · rw [List.find?_cons_of_pos _ hp] at h
        obtain rfl : x = a := by injection h
        refine ⟨hp, 0, Nat.succ_pos _, rfl, ?_⟩
        intro j hj
        exact absurd hj (Nat.not_lt_zero j)
      · rw [List.find?_cons_of_neg _ hp] at h
        obtain ⟨hpa, i, hi, hget, hbefore⟩ := ih a h
        refine ⟨hpa, i + 1, Nat.succ_lt_succ hi, hget, ?_⟩
        intro j hj
        match j with
        | 0 => simpa using hp
        | j + 1 => exact hbefore j (Nat.lt_of_succ_lt_succ hj)

theorem odGet_odUpd {α : Type} (k : String) (v : α) :
    ∀ l : List (String × α), odGet (odUpd l k v) k = some v := by
  intro l
  induction l with
  | nil => simp [odUpd, odGet]
  | cons p t ih =>
      obtain ⟨k₀, v₀⟩ := p
      by_cases h : k₀ = k
      · simp [odUpd, odGet, h]
      · simp [odUpd, odGet, h, ih]

theorem odGet_odAdd (k : String) (v : ℚ) :
    ∀ l : List (String × ℚ),
      odGet (odAdd l k v) k = some ((odGet l k).getD 0 + v) := by
  intro l
  induction l with
  | nil => simp [odAdd, odGet]
  | cons p t ih =>
      obtain ⟨k₀, v₀⟩ := p
      by_cases h : k₀ = k
      · simp [odAdd, odGet, h]
      · simp [odAdd, odGet, h, ih]

theorem odSum_odAdd (k : String) (v : ℚ) :
    ∀ l : List (String × ℚ), odSum (odAdd l k v) = odSum l + v := by
  intro l
  induction l with
  | nil => simp [odAdd, odSum]
  | cons p t ih =>
      obtain ⟨k₀, v₀⟩ := p
      by_cases h : k₀ = k
      · simp [odAdd, odSum, h]
        ring
      · simp [odAdd, odSum, h] at ih ⊢
        rw [ih]
        ring

theorem add_content_spec (fresh : ℕ) (key : String) (value : ℚ) (c : Container) :
    ((add_content fresh key value c).err.isSome ↔
      (value ≤ 0 ∨ c.total_volume + value > c.max_volume_ml)) ∧
    ((add_content fresh key value c).err.isSome →
      (add_content fresh key value c).state.contents = c.contents ∧
      (add_content fresh key value c).state.total_volume = c.total_volume) ∧
    ((add_content fresh key value c).err = none →
      (add_content fresh key value c).state.contents = odAdd c.contents key value ∧
      (add_content fresh key value c).state.total_volume = odSum (odAdd c.contents key value)) ∧
    (add_content fresh key value c).state.max_volume_ml = c.max_volume_ml := by
  unfold add_content Container.withBase
  by_cases hu : c.used <;>
    simp only [hu, Bool.not_true, Bool.not_false, Bool.false_eq_true, if_false, if_true] <;>
      split_ifs with hv hm <;> simp_all

theorem add_content_step (fresh : ℕ) (k : String) (v : ℚ) (c : Container)
    (h1 : c.total_volume = odSum c.contents) (h2 : c.total_volume ≤ c.max_volume_ml) :
    ((add_content fresh k v c).state.total_volume
        = odSum (add_content fresh k v c).state.contents) ∧
    (add_content fresh k v c).state.total_volume
        ≤ (add_content fresh k v c).state.max_volume_ml := by
  obtain ⟨hiff, herr, hok, hmax⟩ := add_content_spec fresh k v c
  cases he : (add_content fresh k v c).err with
  | some e =>
      have hst := herr (by simp [he])
      rw [hst.1, hst.2, hmax]
      exact ⟨h1, h2⟩
  | none =>
      have hs := hok he
      have hcond : ¬(v ≤ 0 ∨ c.total_volume + v > c.max_volume_ml) := by
        intro hx
        have := hiff.mpr hx
        simp [he] at this
      push_neg at hcond
      rw [hs.1, hs.2, hmax, odSum_odAdd]
      constructor
      · rfl
      · have := hcond.2
        linarith

theorem runAdds_invariant : ∀ (ops : List (String × ℚ)) (c : Container) (n : ℕ),
    c.total_volume = odSum c.contents → c.total_volume ≤ c.max_volume_ml →
    ((runAdds c n ops).total_volume = odSum (runAdds c n ops).contents ∧
      (runAdds c n ops).total_volume ≤ (runAdds c n ops).max_volume_ml) := by
  intro ops
  induction ops with
  | nil =>
      intro c n h1 h2
      exact ⟨h1, h2⟩
  | cons p rest ih =>
      intro c n h1 h2
      obtain ⟨k, v⟩ := p
      have step := add_content_step n k v c h1 h2
      exact ih (add_content n k v c).state (n + 1) step.1 step.2

theorem add_weight_used_of_used (fresh : ℕ) (s : String) (w : ℚ) (c : BaseContainer) :
    (add_weight_measurement fresh s w c).state.used = true := by
  unfold add_weight_measurement
  by_cases hu : c.used <;>
    by_cases hl : pyLower s = "empty" <;>
      cases hlast : c.last_weight_mg <;>
        simp_all [set_used_used, set_used_last_weight] <;>
          (try split_ifs) <;> simp_all [set_used_used]

theorem add_weight_saved_iff (fresh : ℕ) (s : String) (w : ℚ) (c : BaseContainer) :
    ((add_weight_measurement fresh s w c).saved = true ↔
      (add_weight_measurement fresh s w c).err = none) := by
  unfold add_weight_measurement
  by_cases hu : c.used <;>
    by_cases hl : pyLower s = "empty" <;>
      cases hlast : c.last_weight_mg <;>
        simp_all [set_used_last_weight] <;>
          (try split_ifs) <;> simp_all

theorem add_weight_unique_id_stable (fresh : ℕ) (s : String) (w : ℚ) (c : BaseContainer)
    (u : ℕ) (h : c.unique_id = some u) :
    (add_weight_measurement fresh s w c).state.unique_id = some u := by
  unfold add_weight_measurement set_used assign_uuid
  by_cases hu : c.used <;>
    by_cases hl : pyLower s = "empty" <;>
      cases hlast : c.last_weight_mg <;>
        simp_all <;>
          (try split_ifs) <;> simp_all

theorem add_weight_last_isSome (fresh : ℕ) (s : String) (w : ℚ) (c : BaseContainer)
    (hsome : (c.last_weight_mg).isSome) (hw : 0 ≤ w) :
    (add_weight_measurement fresh s w c).err = none ∧
    ((add_weight_measurement fresh s w c).state.last_weight_mg).isSome := by
  have hneg : ¬ (w < 0) := not_lt.mpr hw
  obtain ⟨lw, hlast⟩ := Option.isSome_iff_exists.mp hsome
  unfold add_weight_measurement
  by_cases hl : pyLower s = "empty" <;>
    by_cases hu : c.used <;>
      simp_all [set_used_last_weight, if_neg hneg]

theorem odGet_wellsUpd (f : vial_stock → vial_stock) (w k : String) :
    ∀ l : List (String × vial_stock),
      odGet (wellsUpd f w l) k = if k = w then (odGet l k).map f else odGet l k := by
  intro l
  induction l with
  | nil => by_cases h : k = w <;> simp [wellsUpd, odGet, h]
  | cons p t ih =>
      obtain ⟨k₀, v₀⟩ := p
      by_cases hw : k₀ = w
      · subst hw
        by_cases hk : k₀ = k
        · subst hk
          simp [wellsUpd, odGet]
        · have hk₁ : ¬ k = k₀ := fun h => hk h.symm
          simp [wellsUpd, odGet, hk, hk₁, ih]
      · by_cases hk : k₀ = k
        · subst hk
          simp [wellsUpd, odGet, hw]
        · simp [wellsUpd, odGet, hw, hk, ih]

theorem odGet_updWell (t : Tray) (w k : String) (f : vial_stock → vial_stock) :
    odGet (updWell t w f).wells k
      = if k = w then (odGet t.wells k).map f else odGet t.wells k :=
  odGet_wellsUpd f w k t.wells

theorem add_content_used (fresh : ℕ) (k : String) (x : ℚ) (c : Container) :
    (add_content fresh k x c).state.used = true ∨
    (add_content fresh k x c).state.used = c.used := by
  unfold add_content Container.withBase
  by_cases hu : c.used <;>
    simp only [hu, Bool.not_true, Bool.not_false, Bool.false_eq_true, if_false, if_true] <;>
      split_ifs <;> simp_all [set_used_used]

theorem add_content_used_of_any (fresh : ℕ) (k : String) (x : ℚ) (c : Container) :
    (add_content fresh k x c).state.used = true := by
  unfold add_content Container.withBase
  by_cases hu : c.used <;>
    simp only [hu, Bool.not_true, Bool.not_false, Bool.false_eq_true, if_false, if_true] <;>
      split_ifs <;> simp_all [set_used_used]

theorem add_content_unique_id_stable (fresh : ℕ) (k : String) (x : ℚ) (c : Container)
    (u : ℕ) (h : c.unique_id = some u) :
    (add_content fresh k x c).state.unique_id = some u := by
  unfold add_content Container.withBase
  by_cases hu : c.used <;>
    simp only [hu, Bool.not_true, Bool.not_false, Bool.false_eq_true, if_false, if_true] <;>
      split_ifs <;>
        simp_all [set_used_unique_id_stable fresh true c.toBaseContainer u h]

theorem add_content_saved_iff (fresh : ℕ) (k : String) (x : ℚ) (c : Container) :
    ((add_content fresh k x c).saved = true ↔ (add_content fresh k x c).err = none) := by
  unfold add_content Container.withBase
  by_cases hu : c.used <;>
    simp only [hu, Bool.not_true, Bool.not_false, Bool.false_eq_true, if_false, if_true] <;>
      split_ifs <;> simp_all

theorem vs_add_weight_used (n : ℕ) (s : String) (q : ℚ) (v : vial_stock) :
    (vs_add_weight_measurement n s q v).state.used = true := by
  unfold vs_add_weight_measurement vial_stock.withBase
  exact add_weight_used_of_used n s q v.toBaseContainer

theorem vs_add_content_used (n : ℕ) (k : String) (x : ℚ) (v : vial_stock) :
    (vs_add_content n k x v).state.used = true := by
  unfold vs_add_content
  exact add_content_used_of_any n k x v.toContainer

theorem vs_add_weight_unique_id (n : ℕ) (s : String) (q : ℚ) (v : vial_stock) (u : ℕ)
    (h : v.unique_id = some u) :
    (vs_add_weight_measurement n s q v).state.unique_id = some u := by
  unfold vs_add_weight_measurement vial_stock.withBase
  exact add_weight_unique_id_stable n s q v.toBaseContainer u h

theorem vs_add_content_unique_id (n : ℕ) (k : String) (x : ℚ) (v : vial_stock) (u : ℕ)
    (h : v.unique_id = some u) :
    (vs_add_content n k x v).state.unique_id = some u := by
  unfold vs_add_content
  exact add_content_unique_id_stable n k x v.toContainer u h

theorem applyOp_used (t : Tray) (op : Op) (w : String) (v : vial_stock)
    (hv : odGet t.wells w = some v) (hu : v.used = true) (hr : ¬ IsReset w op) :
    ∃ v', odGet (applyOp t op).wells w = some v' ∧ v'.used = true := by
  cases op with
  | addWeight w₀ s q n =>
      rw [applyOp, odGet_updWell]
      by_cases hw : w = w₀
      · subst hw
        rw [if_pos rfl, hv]
        exact ⟨_, rfl, vs_add_weight_used n s q v⟩
      · rw [if_neg hw, hv]
        exact ⟨v, rfl, hu⟩
  | addContent w₀ k x n =>
      rw [applyOp, odGet_updWell]
      by_cases hw : w = w₀
      · subst hw
        rw [if_pos rfl, hv]
        exact ⟨_, rfl, vs_add_content_used n k x v⟩
      · rw [if_neg hw, hv]
        exact ⟨v, rfl, hu⟩
  | toggleCap w₀ b =>
      rw [applyOp, odGet_updWell]
      by_cases hw : w = w₀
      · subst hw
        rw [if_pos rfl, hv]
        exact ⟨_, rfl, hu⟩
      · rw [if_neg hw, hv]
        exact ⟨v, rfl, hu⟩
  | markUsed w₀ b n =>
      rw [applyOp, odGet_updWell]
      by_cases hw : w = w₀
      · have hb : b = true := by
          rcases Bool.eq_false_or_eq_true b with hb | hb
          · exact hb
          · exact absurd (show IsReset w (Op.markUsed w₀ b n) from ⟨hw.symm, hb⟩) hr
        subst hw
        rw [if_pos rfl, hv]
        refine ⟨_, rfl, ?_⟩
        show (set_used n b v.toBaseContainer).used = true
        rw [set_used_used, hb]
      · rw [if_neg hw, hv]
        exact ⟨v, rfl, hu⟩

theorem runOps_used : ∀ (ops : List Op) (t : Tray) (w : String) (v : vial_stock),
    odGet t.wells w = some v → v.used = true → (∀ op ∈ ops, ¬ IsReset w op) →
    ∃ v', odGet (runOps t ops).wells w = some v' ∧ v'.used = true := by
  intro ops
  induction ops with
  | nil =>
      intro t w v hv hu _
      exact ⟨v, hv, hu⟩
  | cons op rest ih =>
      intro t w v hv hu hr
      obtain ⟨v₁, hv₁, hu₁⟩ := applyOp_used t op w v hv hu (hr op (by simp))
      exact ih (applyOp t op) w v₁ hv₁ hu₁ (fun o ho => hr o (by simp [ho]))

theorem applyOp_unique_id (t : Tray) (op : Op) (w : String) (v : vial_stock) (u : ℕ)
    (hv : odGet t.wells w = some v) (hu : v.unique_id = some u) :
    ∃ v', odGet (applyOp t op).wells w = some v' ∧ v'.unique_id = some u := by
  cases op with
  | addWeight w₀ s q n =>
      rw [applyOp, odGet_updWell]
      by_cases hw : w = w₀
      · subst hw
        rw [if_pos rfl, hv]
        exact ⟨_, rfl, vs_add_weight_unique_id n s q v u hu⟩
      · rw [if_neg hw, hv]
        exact ⟨v, rfl, hu⟩
  | addContent w₀ k x n =>
      rw [applyOp, odGet_updWell]
      by_cases hw : w = w₀
      · subst hw
        rw [if_pos rfl, hv]
        exact ⟨_, rfl, vs_add_content_unique_id n k x v u hu⟩
      · rw [if_neg hw, hv]
        exact ⟨v, rfl, hu⟩
  | toggleCap w₀ b =>
      rw [applyOp, odGet_updWell]
      by_cases hw : w = w₀
      · subst hw
        rw [if_pos rfl, hv]
        exact ⟨_, rfl, hu⟩
      · rw [if_neg hw, hv]
        exact ⟨v, rfl, hu⟩
  | markUsed w₀ b n =>
      rw [applyOp, odGet_updWell]
      by_cases hw : w = w₀
      · subst hw
        rw [if_pos rfl, hv]
        refine ⟨_, rfl, ?_⟩
        show (set_used n b v.toBaseContainer).unique_id = some u
        exact set_used_unique_id_stable n b v.toBaseContainer u hu
      · rw [if_neg hw, hv]
        exact ⟨v, rfl, hu⟩

theorem runOps_unique_id : ∀ (ops : List Op) (t : Tray) (w : String) (v : vial_stock) (u : ℕ),
    odGet t.wells w = some v → v.unique_id = some u →
    ∃ v', odGet (runOps t ops).wells w = some v' ∧ v'.unique_id = some u := by
  intro ops
  induction ops with
  | nil =>
      intro t w v u hv hu
      exact ⟨v, hv, hu⟩
  | cons op rest ih =>
      intro t w v u hv hu
      obtain ⟨v₁, hv₁, hu₁⟩ := applyOp_unique_id t op w v u hv hu
      exact ih (applyOp t op) w v₁ u hv₁ hu₁

theorem gna_used_false (t : Tray) (c : vial_stock)
    (h : t.get_next_available = some c) : c.used = false := by
  unfold Tray.get_next_available at h
  cases hfind : t.wells.find? (fun p => !p.2.used) with
  | none => rw [hfind] at h; simp at h
  | some q =>
      rw [hfind] at h
      have hq := List.find?_some hfind
      have hc : some q.2 = some c := h
      have hc₁ : q.2 = c := by injection hc
      rw [← hc₁]
      simpa using hq

/-! ## Claim theorems -/

/-- C1: `Tray.get_next_available` returns the first container, in the
tray's well-insertion order, whose `used` flag is false (in particular never
a used container), and returns `None` when every container is used. -/
theorem C1_get_next_available (t : Tray) :
    (∀ c, t.get_next_available = some c →
      c.used = false ∧
      ∃ i, ∃ h : i < t.wells.length,
        (t.wells.get ⟨i, h⟩).2 = c ∧
        ∀ j (hj : j < i), (t.wells.get ⟨j, Nat.lt_trans hj h⟩).2.used = true) ∧
    ((∀ p ∈ t.wells, p.2.used = true) → t.get_next_available = none) := by
  constructor
  · intro c hc
    unfold Tray.get_next_available at hc
    obtain ⟨q, hq, rfl⟩ : ∃ q, t.wells.find? (fun p => !p.2.used) = some q ∧ q.2 = c := by
      cases hfind : t.wells.find? (fun p => !p.2.used) with
      | none => rw [hfind] at hc; simp at hc
      | some q => rw [hfind] at hc; exact ⟨q, rfl, by simpa using hc⟩
    obtain ⟨hpq, i, hi, hget, hbefore⟩ := find?_first _ _ _ hq
    refine ⟨by simpa using hpq, i, hi, by rw [hget], ?_⟩
    intro j hj
    have := hbefore j hj
    simpa using this
  · intro hall
    unfold Tray.get_next_available
    have : t.wells.find? (fun p => !p.2.used) = none := by
      rw [List.find?_eq_none]
      intro p hp
      simp [hall p hp]
    simp [this]

/-- C1 witness: on the concrete two-well tray the theorem returns the
untouched second vial, and on the all-used tray it returns `none`. -/
theorem C1_get_next_available_witness :
    vsA2.used = false ∧ usedTray.get_next_available = none :=
  ⟨((C1_get_next_available sampleTray).1 vsA2 (by decide)).1,
    (C1_get_next_available usedTray).2 (by decide)⟩

/-- C4: `Container.add_content(key, value)` raises `ValueError` iff
`value ≤ 0` or `total_volume + value > max_volume_ml`; on success it
increases `contents[key]` by `value` (creating the entry if absent) and
leaves `total_volume` equal to the sum of all content values; consequently
`total_volume` never exceeds `max_volume_ml` along any sequence of
`add_content` calls started from a state satisfying the accounting
invariant. -/
theorem C4_add_content (fresh : ℕ) (key : String) (value : ℚ) (c : Container) :
    ((add_content fresh key value c).err.isSome ↔
      (value ≤ 0 ∨ c.total_volume + value > c.max_volume_ml)) ∧
    ((add_content fresh key value c).err = none →
      odGet (add_content fresh key value c).state.contents key
        = some ((odGet c.contents key).getD 0 + value) ∧
      (add_content fresh key value c).state.total_volume
        = odSum (add_content fresh key value c).state.contents) ∧
    (∀ ops n, c.total_volume = odSum c.contents → c.total_volume ≤ c.max_volume_ml →
      (runAdds c n ops).total_volume ≤ (runAdds c n ops).max_volume_ml) := by
  obtain ⟨hiff, _herr, hok, _hmax⟩ := add_content_spec fresh key value c
  refine ⟨hiff, ?_, ?_⟩
  · intro he
    obtain ⟨hc, ht⟩ := hok he
    constructor
    · rw [hc, odGet_odAdd]
    · rw [ht, hc]
  · intro ops n h1 h2
    exact (runAdds_invariant ops c n h1 h2).2

/-- C4 witness: adding 2 ml of water to the fresh 16 ml flask succeeds,
records 2 ml of water, keeps the accounting invariant, and the capacity
bound holds after the one-step run. -/
theorem C4_add_content_witness :
    (odGet (add_content 0 "water" 2 flask).state.contents "water" = some (0 + 2) ∧
      (add_content 0 "water" 2 flask).state.total_volume
        = odSum (add_content 0 "water" 2 flask).state.contents) ∧
    (runAdds flask 0 [("water", 2)]).total_volume
      ≤ (runAdds flask 0 [("water", 2)]).max_volume_ml := by
  have h := C4_add_content 0 "water" 2 flask
  have he : (add_content 0 "water" 2 flask).err = none := by
    norm_num [add_content, Container.withBase, flask]
  refine ⟨?_, h.2.2 [("water", 2)] 0 (by norm_num [flask, odSum]) (by norm_num [flask])⟩
  have := h.2.1 he
  simpa [flask, odGet] using this

/-- C6: `add_weight_measurement(sample_name, weight)` (for a non-negative
weight) records the gross weight in `weight_history[sample_name]`; on an
`'empty'` sample name (case-insensitively) it sets `empty_weight_mg` and
initializes the previous-weight tracker to `weight`; otherwise it records
`weight - previous` in `measured_weight[sample_name]` and moves the tracker
to `weight`. -/
theorem C6_add_weight_measurement (fresh : ℕ) (s : String) (w : ℚ) (c : BaseContainer)
    (hw : 0 ≤ w) :
    (odGet (add_weight_measurement fresh s w c).state.weight_history s = some w) ∧
    (pyLower s = "empty" →
      (add_weight_measurement fresh s w c).err = none ∧
      (add_weight_measurement fresh s w c).state.empty_weight_mg = some w ∧
      (add_weight_measurement fresh s w c).state.last_weight_mg = some w) ∧
    (pyLower s ≠ "empty" → ∀ lw, c.last_weight_mg = some lw →
      (add_weight_measurement fresh s w c).err = none ∧
      odGet (add_weight_measurement fresh s w c).state.measured_weight s
        = some (w - lw) ∧
      (add_weight_measurement fresh s w c).state.last_weight_mg = some w) := by
  have hneg : ¬ (w < 0) := not_lt.mpr hw
  unfold add_weight_measurement
  by_cases hu : c.used <;>
    by_cases hl : pyLower s = "empty" <;>
      cases hlast : c.last_weight_mg <;>
        simp_all [set_used_weight_history, set_used_measured_weight, set_used_last_weight,
          odGet_odUpd, if_neg hneg]

/-- C6 witness: an `'Empty'` tare of 10 mg followed by a 12 mg gross weight
for sample `s1` on the fresh base container. -/
theorem C6_add_weight_measurement_witness :
    (add_weight_measurement 0 "Empty" 10 bc0).state.empty_weight_mg = some 10 ∧
    odGet (add_weight_measurement 1 "s1" 12
        (add_weight_measurement 0 "Empty" 10 bc0).state).state.measured_weight "s1"
      = some (12 - 10) := by
  have h₀ := C6_add_weight_measurement 0 "Empty" 10 bc0 (by norm_num)
  have he := (h₀.2.1 (by decide)).2
  have h₁ := C6_add_weight_measurement 1 "s1" 12
    (add_weight_measurement 0 "Empty" 10 bc0).state (by norm_num)
  exact ⟨he.1, (h₁.2.2 (by decide) 10 he.2).2.1⟩

/-- C7: the code's `volume_tracking` rejects a negative volume and a volume
above the remaining capacity exactly as the claim says, but its last line
`self.total_volume = + volume_ml` (unary plus) assigns instead of
accumulating: on the 16 ml vial already holding 1 ml, tracking 2 ml leaves
`total_volume = 2`, not the claimed previous-plus-new value 3. -/
theorem C7_volume_tracking_assigns :
    (volume_tracking 2 tube).err = none ∧
    (volume_tracking 2 tube).state.total_volume = 2 ∧
    tube.total_volume + 2 = 3 ∧
    ((volume_tracking (-1) tube).err).isSome ∧
    ((volume_tracking 16 tube).err).isSome := by
  refine ⟨?_, ?_, ?_, ?_, ?_⟩ <;> norm_num [volume_tracking, tube]

/-- C8: calling `add_weight_measurement` with a negative weight on an
unused container raises `ValueError`, but only after the `used` flag has
been set and a uuid assigned: the error path does not leave the state
unchanged. -/
theorem C8_non_atomic_error (fresh : ℕ) (s : String) (w : ℚ) (c : BaseContainer)
    (hu : c.used = false) (hw : w < 0) :
    (add_weight_measurement fresh s w c).err
      = some "ValueError: Weight cannot be negative." ∧
    (add_weight_measurement fresh s w c).state.used = true ∧
    ((add_weight_measurement fresh s w c).state.unique_id).isSome := by
  unfold add_weight_measurement
  simp [hu, if_pos hw, set_used_used, set_used_unique_id_isSome]

/-- C8 witness: weighing -5 on the fresh base container raises but flips
the `used` flag and assigns an id. -/
theorem C8_non_atomic_error_witness :
    (add_weight_measurement 7 "s1" (-5) bc0).err
      = some "ValueError: Weight cannot be negative." ∧
    (add_weight_measurement 7 "s1" (-5) bc0).state.used = true ∧
    ((add_weight_measurement 7 "s1" (-5) bc0).state.unique_id).isSome :=
  C8_non_atomic_error 7 "s1" (-5) bc0 (by decide) (by norm_num)

/-- C2 (counterexample): `toggle_cap` and `vial_sample.volume_tracking`
mutate container state (cap flips, tracked volume changes) yet invoke no
JSON save, so not every state-mutating operation triggers
`Tray.save_to_json`. -/
theorem C2_write_through_cx :
    (toggle_cap false vsA1).state.cap = false ∧
    vsA1.cap = true ∧
    (toggle_cap false vsA1).saved = false ∧
    (volume_tracking 2 tube).state.total_volume = 2 ∧
    tube.total_volume = 1 ∧
    (volume_tracking 2 tube).saved = false := by
  refine ⟨rfl, rfl, rfl, ?_, rfl, ?_⟩ <;> norm_num [volume_tracking, tube]

/-- C2 (amended): `add_weight_measurement` and `add_content` invoke
`_update_plate_json` (hence `Tray.save_to_json` on an attached tray)
exactly when they return without raising, while `Tray.mark_used`,
`toggle_cap` and `vial_sample.volume_tracking` mutate state and return
without any JSON save. -/
theorem C2_json_saves :
    (∀ fresh s w c, ((add_weight_measurement fresh s w c).saved = true ↔
        (add_weight_measurement fresh s w c).err = none)) ∧
    (∀ fresh k v c, ((add_content fresh k v c).saved = true ↔
        (add_content fresh k v c).err = none)) ∧
    (∀ b v, (toggle_cap b v).saved = false) ∧
    (∀ x v, (volume_tracking x v).saved = false) ∧
    (∀ fresh t w b, (Tray.mark_used fresh t w b).saved = false) := by
  refine ⟨add_weight_saved_iff, add_content_saved_iff, fun b v => rfl, ?_, ?_⟩
  · intro x v
    unfold volume_tracking
    split_ifs <;> rfl
  · intro fresh t w b
    unfold Tray.mark_used
    split_ifs <;> rfl

/-- C2 witness: the amended save behaviour at concrete calls. -/
theorem C2_json_saves_witness :
    (toggle_cap false vsA1).saved = false ∧
    (volume_tracking 2 tube).saved = false ∧
    (Tray.mark_used 3 sampleTray "A1" false).saved = false :=
  ⟨C2_json_saves.2.2.1 false vsA1, C2_json_saves.2.2.2.1 2 tube,
    C2_json_saves.2.2.2.2 3 sampleTray "A1" false⟩

/-- C3: applying a weight measurement or content addition to the container
at well `w` leaves its `used` flag true, and through any further operation
sequence that never explicitly resets that flag the container at `w` stays
used, so `get_next_available` (which only returns containers with
`used = false`) never returns it again. -/
theorem C3_double_use_avoidance (t : Tray) (w : String) (ops : List Op) :
    (∀ s q n v, odGet t.wells w = some v →
      ∃ v', odGet (applyOp t (Op.addWeight w s q n)).wells w = some v'
        ∧ v'.used = true) ∧
    (∀ k x n v, odGet t.wells w = some v →
      ∃ v', odGet (applyOp t (Op.addContent w k x n)).wells w = some v'
        ∧ v'.used = true) ∧
    (∀ v, odGet t.wells w = some v → v.used = true →
      (∀ op ∈ ops, ¬ IsReset w op) →
      ∃ v', odGet (runOps t ops).wells w = some v' ∧ v'.used = true ∧
        ∀ c, (runOps t ops).get_next_available = some c →
          c.used = false ∧ c ≠ v') := by
  refine ⟨?_, ?_, ?_⟩
  · intro s q n v hv
    rw [applyOp, odGet_updWell, if_pos rfl, hv]
    exact ⟨_, rfl, vs_add_weight_used n s q v⟩
  · intro k x n v hv
    rw [applyOp, odGet_updWell, if_pos rfl, hv]
    exact ⟨_, rfl, vs_add_content_used n k x v⟩
  · intro v hv hu hr
    obtain ⟨v', hv', hu'⟩ := runOps_used ops t w v hv hu hr
    refine ⟨v', hv', hu', ?_⟩
    intro c hc
    have hcu : c.used = false := gna_used_false _ c hc
    refine ⟨hcu, ?_⟩
    intro hcon
    rw [hcon, hu'] at hcu
    exact Bool.noConfusion hcu

/-- C3 witness: on the concrete tray, weighing into well `A2` marks it
used, and afterwards `get_next_available` no longer returns it. -/
theorem C3_double_use_avoidance_witness :
    (∃ v', odGet (applyOp sampleTray (Op.addWeight "A2" "empty" 3 0)).wells "A2"
        = some v' ∧ v'.used = true) ∧
    (∃ v', odGet (runOps usedTray []).wells "A1" = some v' ∧ v'.used = true ∧
      ∀ c, (runOps usedTray []).get_next_available = some c →
        c.used = false ∧ c ≠ v') :=
  ⟨(C3_double_use_avoidance sampleTray "A2" []).1 "empty" 3 0 vsA2 (by decide),
    (C3_double_use_avoidance usedTray "A1" []).2.2 vsA1 (by decide) (by decide)
      (by intro op h; simp at h)⟩

/-- C9: `_assign_uuid` is a no-op once an id is set; every assignment
through the `used` setter (with either boolean) leaves a non-`None` id; and
an assigned id survives unchanged through every container method and every
tray-level operation sequence. -/
theorem C9_unique_id_stability :
    (∀ fresh c, (c : BaseContainer).unique_id.isSome → assign_uuid fresh c = c) ∧
    (∀ fresh v c, ((set_used fresh v c).unique_id).isSome) ∧
    (∀ fresh v c u, c.unique_id = some u → (set_used fresh v c).unique_id = some u) ∧
    (∀ fresh s w c u, c.unique_id = some u →
      (add_weight_measurement fresh s w c).state.unique_id = some u) ∧
    (∀ fresh k x c u, c.unique_id = some u →
      (add_content fresh k x c).state.unique_id = some u) ∧
    (∀ b v u, (v : vial_stock).unique_id = some u →
      (toggle_cap b v).state.unique_id = some u) ∧
    (∀ x v u, (v : vial_sample).unique_id = some u →
      (volume_tracking x v).state.unique_id = some u) ∧
    (∀ ops t w v u, odGet t.wells w = some v → v.unique_id = some u →
      ∃ v', odGet (runOps t ops).wells w = some v' ∧ v'.unique_id = some u) := by
  refine ⟨?_, set_used_unique_id_isSome, set_used_unique_id_stable,
    add_weight_unique_id_stable, add_content_unique_id_stable, ?_, ?_, ?_⟩
  · intro fresh c h
    unfold assign_uuid
    rw [if_pos h]
  · intro b v u h
    exact h
  · intro x v u h
    unfold volume_tracking
    split_ifs <;> exact h
  · intro ops t w v u hv hu
    exact runOps_unique_id ops t w v u hv hu

/-- C9 witness: marking the fresh base container used assigns an id,
`_assign_uuid` is then a no-op, and a later `used := False` reset keeps the
same id. -/
theorem C9_unique_id_stability_witness :
    assign_uuid 9 (set_used 4 true bc0) = set_used 4 true bc0 ∧
    (set_used 7 false (set_used 4 true bc0)).unique_id = some 4 :=
  ⟨C9_unique_id_stability.1 9 (set_used 4 true bc0) (by decide),
    C9_unique_id_stability.2.2.1 7 false (set_used 4 true bc0) 4 (by decide)⟩

theorem runWeights_no_err : ∀ (rest : List (String × ℚ)) (c : BaseContainer) (n : ℕ),
    (c.last_weight_mg).isSome → (∀ p ∈ rest, 0 ≤ p.2) →
    (∀ e ∈ (runWeights c n rest).2, e = none) ∧
    ((runWeights c n rest).1.last_weight_mg).isSome := by
  intro rest
  induction rest with
  | nil =>
      intro c n hs _
      refine ⟨?_, hs⟩
      intro e he
      simp [runWeights] at he
  | cons p rest ih =>
      intro c n hs hw
      obtain ⟨s, w⟩ := p
      have step := add_weight_last_isSome n s w c hs (hw (s, w) (by simp))
      have hrec := ih (add_weight_measurement n s w c).state (n + 1) step.2
        (fun q hq => hw q (by simp [hq]))
      refine ⟨?_, by simpa [runWeights] using hrec.2⟩
      intro e he
      have he₁ : e = (add_weight_measurement n s w c).err ∨
          e ∈ (runWeights (add_weight_measurement n s w c).state (n + 1) rest).2 := by
        simpa [runWeights] using he
      rcases he₁ with rfl | he₁
      · exact step.1
      · exact hrec.1 e he₁

/-- C10: a non-`'empty'` weight measurement is only defined after an
`'empty'` one: on a container whose previous-weight tracker is unset the
non-`'empty'` branch raises (`AttributeError`), while any run of
non-negative measurements that starts with an `'empty'` one raises no
exception at all. -/
theorem C10_baseline_precondition (c : BaseContainer) :
    (∀ fresh s w, c.last_weight_mg = none → pyLower s ≠ "empty" → 0 ≤ w →
      ((add_weight_measurement fresh s w c).err).isSome) ∧
    (∀ n s₀ w₀ rest, pyLower s₀ = "empty" → 0 ≤ w₀ → (∀ p ∈ rest, 0 ≤ p.2) →
      ∀ e ∈ (runWeights c n ((s₀, w₀) :: rest)).2, e = none) := by
  constructor
  · intro fresh s w hnone hl hw
    have hneg : ¬ (w < 0) := not_lt.mpr hw
    unfold add_weight_measurement
    by_cases hu : c.used <;>
      simp_all [set_used_last_weight, if_neg hneg]
  · intro n s₀ w₀ rest hl hw₀ hrest e he
    have hneg : ¬ (w₀ < 0) := not_lt.mpr hw₀
    have hfirst : (add_weight_measurement n s₀ w₀ c).err = none ∧
        ((add_weight_measurement n s₀ w₀ c).state.last_weight_mg).isSome := by
      unfold add_weight_measurement
      by_cases hu : c.used <;> simp_all [set_used_last_weight, if_neg hneg]
    have hrec := runWeights_no_err rest (add_weight_measurement n s₀ w₀ c).state (n + 1)
      hfirst.2 hrest
    have he₁ : e = (add_weight_measurement n s₀ w₀ c).err ∨
        e ∈ (runWeights (add_weight_measurement n s₀ w₀ c).state (n + 1) rest).2 := by
      simpa [runWeights] using he
    rcases he₁ with rfl | he₁
    · exact hfirst.1
    · exact hrec.1 e he₁

/-- C10 witness: a first non-`'empty'` measurement on the fresh container
raises, while the one-measurement `'empty'` run has error list `[none]`. -/
theorem C10_baseline_precondition_witness :
    ((add_weight_measurement 0 "s1" 2 bc0).err).isSome = true ∧
    (runWeights bc0 0 [("empty", 2)]).2.getD 0 (some "") = none :=
  ⟨(C10_baseline_precondition bc0).1 0 "s1" 2 (by decide) (by decide) (by decide),
    (C10_baseline_precondition bc0).2 0 "empty" 2 [] (by decide) (by decide)
      (by intro p hp; simp at hp) _ (by decide)⟩

theorem natCharsAux_zero : ∀ fuel, natCharsAux fuel 0 = [] := by
  intro fuel
  cases fuel <;> simp [natCharsAux]

theorem natCharsAux_eq_digits : ∀ (fuel n : ℕ), n ≠ 0 → n ≤ fuel →
    natCharsAux fuel n = ((Nat.digits 10 n).map Nat.digitChar).reverse := by
  intro fuel
  induction fuel with
  | zero =>
      intro n hn h0
      omega
  | succ fuel ih =>
      intro n hn hf
      simp only [natCharsAux, if_neg hn]
      rw [Nat.digits_def' (by norm_num : (1 : ℕ) < 10) (Nat.pos_of_ne_zero hn)]
      rw [List.map_cons, List.reverse_cons]
      congr 1
      by_cases h10 : n / 10 = 0
      · rw [h10, natCharsAux_zero]
        simp
      · refine ih (n / 10) h10 ?_
        have := Nat.div_lt_self (Nat.pos_of_ne_zero hn) (by norm_num : 1 < 10)
        omega

theorem natChars_eq_digits (n : ℕ) (hn : n ≠ 0) :
    natChars n = ((Nat.digits 10 n).map Nat.digitChar).reverse := by
  unfold natChars
  rw [if_neg hn]
  exact natCharsAux_eq_digits n n hn le_rfl

theorem digitChar_inj_lt (d e : ℕ) (hd : d < 10) (he : e < 10)
    (h : Nat.digitChar d = Nat.digitChar e) : d = e := by
  interval_cases d <;> interval_cases e <;>
    first
      | rfl
      | (exfalso; revert h; decide)

theorem map_digitChar_inj : ∀ (l₁ l₂ : List ℕ), (∀ x ∈ l₁, x < 10) → (∀ x ∈ l₂, x < 10) →
    l₁.map Nat.digitChar = l₂.map Nat.digitChar → l₁ = l₂ := by
  intro l₁
  induction l₁ with
  | nil =>
      intro l₂ _ _ h
      cases l₂ with
      | nil => rfl
      | cons b t₂ => simp at h
  | cons a t ih =>
      intro l₂ h₁ h₂ h
      cases l₂ with
      | nil => simp at h
      | cons b t₂ =>
          simp only [List.map_cons, List.cons.injEq] at h
          have hab := digitChar_inj_lt a b (h₁ a (by simp)) (h₂ b (by simp)) h.1
          rw [hab, ih t₂ (fun x hx => h₁ x (by simp [hx])) (fun x hx => h₂ x (by simp [hx])) h.2]

theorem natChars_inj_pos (m n : ℕ) (hm : 0 < m) (hn : 0 < n)
    (h : natChars m = natChars n) : m = n := by
  rw [natChars_eq_digits m (Nat.pos_iff_ne_zero.mp hm),
    natChars_eq_digits n (Nat.pos_iff_ne_zero.mp hn)] at h
  have h₂ := List.reverse_injective h
  have h₃ := map_digitChar_inj (Nat.digits 10 m) (Nat.digits 10 n)
    (fun x hx => Nat.digits_lt_base (by norm_num) hx)
    (fun x hx => Nat.digits_lt_base (by norm_num) hx) h₂
  exact Nat.digits.injective 10 h₃

theorem wellKey_inj (r₁ r₂ : Char) (c₁ c₂ : ℕ) (h₁ : 0 < c₁) (h₂ : 0 < c₂)
    (h : wellKey r₁ c₁ = wellKey r₂ c₂) : r₁ = r₂ ∧ c₁ = c₂ := by
  unfold wellKey at h
  have hd : r₁ :: natChars c₁ = r₂ :: natChars c₂ := String.ext_iff.mp h
  simp only [List.cons.injEq] at hd
  exact ⟨hd.1, natChars_inj_pos c₁ c₂ h₁ h₂ hd.2⟩

theorem create_grid_length (A1 : Pose6) (rows columns : ℕ) (sx sy : ℚ)
    (hc : columns ≤ 26) :
    (create_grid A1 rows columns sx sy).length = rows * columns := by
  unfold create_grid
  rw [List.length_flatMap]
  simp only [List.map_map, Function.comp_def, List.length_map, List.length_range]
  rw [List.map_const', List.sum_replicate, smul_eq_mul, List.enum_length, List.length_take]
  have h26 : ascii_uppercase.length = 26 := rfl
  rw [h26, Nat.min_eq_left hc]
  exact Nat.mul_comm columns rows

theorem create_grid_mem (A1 : Pose6) (rows columns : ℕ) (sx sy : ℚ)
    (i c : ℕ) (hi : i < columns) (hc26 : columns ≤ 26) (hc1 : 1 ≤ c) (hcr : c ≤ rows) :
    ∃ h : i < ascii_uppercase.length,
      (wellKey (ascii_uppercase.get ⟨i, h⟩) c,
        translate A1 (-sx * (i : ℚ)) (-sy * ((c : ℚ) - 1)) 0)
        ∈ create_grid A1 rows columns sx sy := by
  have h26 : i < ascii_uppercase.length := Nat.lt_of_lt_of_le hi hc26
  refine ⟨h26, ?_⟩
  unfold create_grid
  rw [List.mem_flatMap]
  refine ⟨(i, ascii_uppercase.get ⟨i, h26⟩), ?_, ?_⟩
  · rw [List.mk_mem_enum_iff_getElem?, List.getElem?_take, if_pos hi]
    exact List.getElem?_eq_getElem h26
  · rw [List.mem_map]
    refine ⟨c - 1, by rw [List.mem_range]; omega, ?_⟩
    have hc' : c - 1 + 1 = c := by omega
    have hq : ((c - 1 : ℕ) : ℚ) = (c : ℚ) - 1 := by
      rw [Nat.cast_sub hc1, Nat.cast_one]
    show (wellKey (ascii_uppercase.get ⟨i, h26⟩) (c - 1 + 1),
        translate A1 (-sx * ((i : ℕ) : ℚ)) (-sy * ((c - 1 : ℕ) : ℚ)) 0) = _
    rw [hc', hq]

theorem create_grid_keys_nodup (A1 : Pose6) (rows columns : ℕ) (sx sy : ℚ) :
    ((create_grid A1 rows columns sx sy).map Prod.fst).Nodup := by
  unfold create_grid
  rw [List.map_flatMap, List.nodup_flatMap]
  constructor
  · intro ir _hir
    rw [List.map_map]
    refine List.Nodup.map ?_ (List.nodup_range rows)
    intro a b hab
    have hab₁ : wellKey ir.2 (a + 1) = wellKey ir.2 (b + 1) := hab
    have := (wellKey_inj _ _ _ _ (Nat.succ_pos a) (Nat.succ_pos b) hab₁).2
    omega
  · rw [List.pairwise_iff_get]
    intro i j hij
    simp only [Function.onFun]
    intro a ha hb
    rw [List.get_enum] at ha hb
    rw [List.map_map, List.mem_map] at ha hb
    obtain ⟨c₁, _, hc₁⟩ := ha
    obtain ⟨c₂, _, hc₂⟩ := hb
    have h₁ : wellKey ((ascii_uppercase.take columns).get (i.cast List.enum_length))
        (c₁ + 1) = a := hc₁
    have h₂ : wellKey ((ascii_uppercase.take columns).get (j.cast List.enum_length))
        (c₂ + 1) = a := hc₂
    have hr := (wellKey_inj _ _ _ _ (Nat.succ_pos c₁) (Nat.succ_pos c₂)
      (h₁.trans h₂.symm)).1
    have hnd : (ascii_uppercase.take columns).Nodup :=
      (List.take_sublist columns ascii_uppercase).nodup (by decide)
    have hcast := (List.Nodup.get_inj_iff hnd).mp hr
    have hval := congrArg Fin.val hcast
    simp only [Fin.coe_cast] at hval
    exact absurd hval (Nat.ne_of_lt hij)

theorem create_grid_orientation (A1 : Pose6) (rows columns : ℕ) (sx sy : ℚ) :
    ∀ p ∈ create_grid A1 rows columns sx sy,
      p.2.orientation = [A1.ox, A1.oy, A1.oz] := by
  intro p hp
  unfold create_grid at hp
  rw [List.mem_flatMap] at hp
  obtain ⟨ir, _, hp⟩ := hp
  rw [List.mem_map] at hp
  obtain ⟨c₀, _, rfl⟩ := hp
  rfl

/-- C5 (counterexample): `string.ascii_uppercase` has 26 letters, so with
27 requested columns `create_grid` produces only 26 wells in its single
row, not `1 * 27 = 27`: the claim fails for `columns > 26`. -/
theorem C5_create_grid_cx :
    (create_grid pose0 1 27 0 0).length = 26 ∧ 1 * 27 = 27 :=
  ⟨by decide, rfl⟩

/-- C5 (amended): for every `rows ≥ 0` and `columns ≤ 26`, the grid has
exactly `rows * columns` pairwise-distinct well names, the well named by
the `i`-th letter (0-based) and number `c` is the A1 location translated by
`(-spacing[0]*i, -spacing[1]*(c-1), 0)`, and every well keeps A1's
orientation. -/
theorem C5_create_grid (A1 : Pose6) (rows columns : ℕ) (sx sy : ℚ)
    (hc : columns ≤ 26) :
    (create_grid A1 rows columns sx sy).length = rows * columns ∧
    ((create_grid A1 rows columns sx sy).map Prod.fst).Nodup ∧
    (∀ i c, i < columns → 1 ≤ c → c ≤ rows →
      ∃ h : i < ascii_uppercase.length,
        (wellKey (ascii_uppercase.get ⟨i, h⟩) c,
          translate A1 (-sx * (i : ℚ)) (-sy * ((c : ℚ) - 1)) 0)
          ∈ create_grid A1 rows columns sx sy) ∧
    (∀ p ∈ create_grid A1 rows columns sx sy,
      p.2.orientation = [A1.ox, A1.oy, A1.oz]) :=
  ⟨create_grid_length A1 rows columns sx sy hc,
    create_grid_keys_nodup A1 rows columns sx sy,
    fun i c hi hc1 hcr => create_grid_mem A1 rows columns sx sy i c hi hc hc1 hcr,
    create_grid_orientation A1 rows columns sx sy⟩

/-- C5 witness: a 2-row, 3-column grid at the origin with unit spacing has
6 distinct wells, and well `B2` sits at the expected translated pose. -/
theorem C5_create_grid_witness :
    (create_grid pose0 2 3 1 1).length = 2 * 3 ∧
    ((create_grid pose0 2 3 1 1).map Prod.fst).Nodup ∧
    (wellKey (ascii_uppercase.get ⟨1, by decide⟩) 2,
      translate pose0 (-1 * (1 : ℚ)) (-1 * ((2 : ℚ) - 1)) 0)
      ∈ create_grid pose0 2 3 1 1 :=
  have h := C5_create_grid pose0 2 3 1 1 (by norm_num)
  ⟨h.1, h.2.1, (h.2.2.1 1 2 (by norm_num) (by norm_num) (by norm_num)).choose_spec⟩

end SolidDosing
